import Mathlib

/-!
Verification of the IAM-to-Rego policy translator (`regoer`).

This file is a shallow embedding, in Lean, of the translator's core:
the expression IR (`src/expression.rs`), the string interpolator
(`src/interpolation.rs`), the scope translator (`src/statement.rs`), the
condition translator (`src/conditions.rs`) and the policy assembler
(`src/parser.rs`).  Rust `Result` is modelled as `Except`, `Vec` as
`List`, `i64` as `Int`, strings as `String` / `List Char`.  Rust's
`char::is_alphanumeric` is modelled by `Char.isAlphanum` (the classifier
agrees on the ASCII range exercised by IAM policies).
-/

namespace Regoer

/-- Rule effect, `values.rs::Effect`. -/
inductive Effect where
  | Allow
  | Deny
deriving DecidableEq

/-- Scalar-or-array IAM value, `values.rs::Value<T>`. -/
inductive Value (α : Type) where
  | One (a : α)
  | Many (l : List α)
deriving DecidableEq

/-- Positive or complemented scope, `values.rs::Scope<T>`. -/
inductive Scope (α : Type) where
  | Id (v : Value α)
  | Not (v : Value α)
deriving DecidableEq

/-- Interpolation failure, `interpolation.rs::SubstitutionError`. -/
inductive SubstitutionError where
  | NestedInterpolation (s : String)
  | InvalidCharacters (s : String)
  | TooManySlashes (s : String)
  | EmptyExpression
deriving DecidableEq

/-- Translator error, `parser.rs::Error`.  The payloads of the wrapper
variants (`JsonError`, `PolicyError`, `FmtError`) carry external-crate
values and are irrelevant to translation, so they are modelled as bare
constructors. -/
inductive Error where
  | GenericError (s : String)
  | UnsupportedPrincipalType
  | UnsupportedWildcard
  | UnsupportedNegation
  | InvalidType (expected : String) (found : String)
  | UnsupportedFunction (s : String)
  | InvalidStringInterpolation (e : SubstitutionError)
  | JsonError
  | PolicyError
  | FmtError
deriving DecidableEq

/-- Set quantifier on a condition operator key,
`aws_iam::model::ConditionOperatorQuantifier`. -/
inductive ConditionOperatorQuantifier where
  | ForAllValues
  | ForAnyValue
deriving DecidableEq

/-- Condition operator base name, `aws_iam::model::GlobalConditionOperator`.
The constructors are exactly the ones `conditions.rs::build_condition`
matches on; every other operator of the external enum falls into the
catch-all arm, which is modelled by `Other` carrying the operator's debug
name (the string that `build_condition` puts into `UnsupportedFunction`). -/
inductive GlobalConditionOperator where
  | Bool
  | StringEquals
  | StringNotEquals
  | StringEqualsIgnoreCase
  | StringNotEqualsIgnoreCase
  | StringLike
  | StringNotLike
  | NumericEquals
  | NumericNotEquals
  | NumericLessThan
  | NumericLessThanEquals
  | NumericGreaterThan
  | NumericGreaterThanEquals
  | DateEquals
  | DateNotEquals
  | DateGreaterThan
  | DateGreaterThanEquals
  | DateLessThan
  | DateLessThanEquals
  | IpAddress
  | NotIpAddress
  | Other (s : String)
deriving DecidableEq

/-- Full condition operator key, `aws_iam::model::ConditionOperator`. -/
structure ConditionOperator where
  quantifier : Option ConditionOperatorQuantifier
  operator : GlobalConditionOperator
deriving DecidableEq

/-- Optionally qualified attribute name, `aws_iam::model::QString`. -/
structure QString where
  qualifier : Option String
  value : String
deriving DecidableEq

/-- Display form of a `QString` (used when actions are stringified by
`parse_iam_policy`). -/
def QString.toString (q : QString) : String :=
  match q.qualifier with
  | some qual => qual ++ ":" ++ q.value
  | none => q.value

/-- A condition value, `aws_iam::model::ConditionValue` (the `values.rs`
newtype `ConditionValue` only wraps it and is collapsed here).  The
`Float` payload is kept as its printed form: the translator never reads
it except to format an `InvalidType` message. -/
inductive ConditionValue where
  | String (s : String)
  | Integer (i : Int)
  | Float (printed : String)
  | Bool (b : Bool)
deriving DecidableEq

/-- Condition pair, `conditions.rs::CondPair`. -/
abbrev CondPair := QString × Value ConditionValue

/-- Unlowered condition block kept on a statement, `conditions.rs::Conditions`. -/
abbrev Conditions := List (ConditionOperator × List CondPair)

/-- The expression IR, `expression.rs::Expr`.  The Rust `Str` payload of
`Expr::Str` is flattened into the two constructors `StrPlain` and
`StrTemplate` (Lean nested-inductive convenience; the two forms are in
bijection with `Str::Plain` / `Str::Template`). -/
inductive Expr where
  | Statement (eff : Effect) (body : List Expr) (conds : Conditions)
  | Call (fn : String) (args : List Expr)
  | Var (v : String)
  | List (es : List Expr)
  | AnyIn (e : Expr)
  | Bool (b : Bool)
  | StrPlain (s : String)
  | StrTemplate (fmt : String) (vars : List Expr)
  | Int (i : Int)
  | Neg (e : Expr)
  | Eq (l r : Expr)
  | Ne (l r : Expr)
  | Gt (l r : Expr)
  | Gte (l r : Expr)
  | Lt (l r : Expr)
  | Lte (l r : Expr)
  | Every (v : Expr) (iter : Expr) (body : Expr)

/-- Interpolator output, `expression.rs::Str`. -/
inductive Str where
  | Plain (s : String)
  | Template (fmt : String) (vars : List Expr)

/-- Alias for `List Expr`; inside the `Expr` namespace the constructor
names `List`, `Bool` and `Int` shadow the prelude types, so the helper
signatures below use these aliases. -/
abbrev EList := List Expr

/-- Alias for the prelude `Bool` (see `EList`). -/
abbrev BoolV := Bool

/-- Alias for the prelude `Int` (see `EList`). -/
abbrev IntV := Int

/-- Embeds `Str` into the flattened `Expr` constructors (Rust `Expr::Str`). -/
def Expr.ofStr : Str → Expr
  | .Plain s => .StrPlain s
  | .Template f v => .StrTemplate f v

/-- Helper `Expr::call`. -/
def Expr.call (fn : String) (args : EList) : Expr := .Call fn args

/-- Helper `Expr::var`. -/
def Expr.var (s : String) : Expr := .Var s

/-- Helper `Expr::id`. -/
def Expr.id (e : Expr) : Expr := e

/-- Helper `Expr::neg`. -/
def Expr.neg (e : Expr) : Expr := .Neg e

/-- Helper `Expr::list`. -/
def Expr.list (l : EList) : Expr := .List l

/-- Helper `Expr::bool`. -/
def Expr.bool (b : BoolV) : Except Error Expr := .ok (.Bool b)

/-- Helper `Expr::int`. -/
def Expr.int (i : IntV) : Except Error Expr := .ok (.Int i)

/-- Helper `Expr::item`. -/
def Expr.item : Expr := .Var "item"

/-- Helper `Expr::every`. -/
def Expr.every (l : EList) (f : Expr → Except Error Expr) : Except Error Expr := do
  pure (.Every Expr.item (.List l) (← f Expr.item))

/-! ## Interpolator (`interpolation.rs`) -/

/-- Index of the first occurrence of the opening marker of an
interpolation segment (the two-character sequence dollar + left brace),
mirroring Rust's `template[pos..].find("$\x7b")`. -/
def findOpenIdx : List Char → Option Nat
  | [] => none
  | c :: rest =>
    if c = '$' ∧ rest.head? = some '\x7b' then some 0
    else (findOpenIdx rest).map (· + 1)

/-- Index of the first closing right brace, mirroring `find('\x7d')`. -/
def findCloseIdx : List Char → Option Nat
  | [] => none
  | c :: rest => if c = '\x7d' then some 0 else (findCloseIdx rest).map (· + 1)

/-- Rust `str::trim` on a character list. -/
def trimChars (l : List Char) : List Char :=
  ((l.dropWhile Char.isWhitespace).reverse.dropWhile Char.isWhitespace).reverse

/-- Literal escape handling, `interpolation.rs::handle_special_variable`. -/
def handle_special_variable (expr : List Char) : Option Char :=
  match trimChars expr with
  | ['*'] => some '*'
  | ['?'] => some '?'
  | ['$'] => some '$'
  | _ => none

/-- Rust `str::find(',')`. -/
def findCommaIdx (l : List Char) : Option Nat := l.findIdx? (· = ',')

/-- Quoted-default extraction, `interpolation.rs::extract_quoted_string`. -/
def extract_quoted_string (s : List Char) : Option (List Char) :=
  let trimmed := trimChars s
  let sq := Char.ofNat 39
  if trimmed.head? = some sq ∧ trimmed.getLast? = some sq ∧ 2 ≤ trimmed.length then
    some (trimmed.drop 1).dropLast
  else if trimmed.head? = some '"' ∧ trimmed.getLast? = some '"' ∧ 2 ≤ trimmed.length then
    some (trimmed.drop 1).dropLast
  else
    none

/-- Default-value split, `interpolation.rs::parse_variable_with_default`. -/
def parse_variable_with_default (expr : List Char) : List Char × Option (List Char) :=
  match findCommaIdx expr with
  | some i =>
    let var_part := trimChars (expr.take i)
    let default_part := trimChars (expr.drop (i + 1))
    match extract_quoted_string default_part with
    | some d => (var_part, some d)
    | none => (expr, none)
  | none => (expr, none)

/-- Characters allowed in an interpolation variable name
(`validate_variable_expr`'s final check).  Rust `char::is_alphanumeric`
is modelled by `Char.isAlphanum`. -/
def allowedVarChar (c : Char) : Bool :=
  c.isAlphanum || c = '_' || c = '-' || c = ':' || c = '.' || c = '/'

/-- Boolean substring test used to mirror Rust `str::contains(pattern)`. -/
def hasSub (p : List Char) : List Char → Bool
  | [] => p.isEmpty
  | c :: rest => p.isPrefixOf (c :: rest) || hasSub p rest

/-- The two-character opening marker (dollar + left brace). -/
def openPat : List Char := ['$', '\x7b']

/-- Variable-name validation, `interpolation.rs::validate_variable_expr`. -/
def validate_variable_expr (expr : List Char) : Except SubstitutionError Unit :=
  if expr.isEmpty then .error .EmptyExpression
  else if hasSub openPat expr then .error (.NestedInterpolation (String.mk expr))
  else if expr.contains '\x7d' then .error (.InvalidCharacters (String.mk expr))
  else if 1 < (expr.filter (· = '/')).length then .error (.TooManySlashes (String.mk expr))
  else if expr.all allowedVarChar then .ok ()
  else .error (.InvalidCharacters (String.mk expr))

/-- Rust `str::split('.')`, keeping empty pieces. -/
def splitOnDot : List Char → List (List Char)
  | [] => [[]]
  | c :: rest =>
    if c = '.' then [] :: splitOnDot rest
    else
      match splitOnDot rest with
      | p :: ps => (c :: p) :: ps
      | [] => [[c]]

/-- The constant `interpolation.rs::INPUT_PREFIX`. -/
def INPUT_PREFIX : List Char := ['i', 'n', 'p', 'u', 't', '.']

/-- Qualifier and slash normalization inside a variable path (the
character loop in `substitute_variables`). -/
def normalizeVarChar (c : Char) : Char := if c = ':' ∨ c = '/' then '.' else c

/-- The scanning loop of `interpolation.rs::substitute_variables`,
expressed as a recursion on the still-unprocessed suffix of the template
(in the Rust loop, `last_end` always equals `pos` at the top of an
iteration, so the processed prefix can be emitted incrementally).  The
`Nat` argument is structural fuel; the caller passes the template
length, which always suffices because every iteration consumes at least
the three characters of the delimiters.

Two calls of `Expr::str` inside the loop are inlined to their provable
values: the default value and the path segments passed to `Expr::str`
never contain a closing right brace (they are carved out of the segment
body, which ends before the first right brace), so `substitute_variables`
on them returns them verbatim as `Str::Plain` (see
`substitute_variables_no_close` below, which proves this fact for the
model). -/
def svGo : Nat → List Char → Except Error (List Char × List Expr)
  | 0, s => .ok (s, [])
  | fuel + 1, s =>
    match findOpenIdx s with
    | none => .ok (s, [])
    | some start =>
      let pre := s.take start
      let afterOpen := s.drop (start + 2)
      match findCloseIdx afterOpen with
      | none => .ok (s, [])
      | some endRel =>
        let varExpr := afterOpen.take endRel
        let tail := afterOpen.drop (endRel + 1)
        match handle_special_variable varExpr with
        | some c =>
          match svGo fuel tail with
          | .ok (f, vs) => .ok (pre ++ c :: f, vs)
          | .error e => .error e
        | none =>
          let parsed := parse_variable_with_default varExpr
          match validate_variable_expr parsed.1 with
          | .error e => .error (.InvalidStringInterpolation e)
          | .ok _ =>
            let varName := INPUT_PREFIX ++ parsed.1.map normalizeVarChar
            let vexpr :=
              match parsed.2 with
              | some d =>
                let parts := splitOnDot varName
                let object := parts.headD []
                let path := (parts.drop 1).map (fun seg => Expr.StrPlain (String.mk seg))
                Expr.Call "object.get" [Expr.Var (String.mk object), Expr.List path, Expr.StrPlain (String.mk d)]
              | none => Expr.Var (String.mk varName)
            match svGo fuel tail with
            | .ok (f, vs) => .ok (pre ++ '%' :: 's' :: f, vexpr :: vs)
            | .error e => .error e

/-- The interpolator, `interpolation.rs::substitute_variables`. -/
def substitute_variables (template : String) : Except Error Str :=
  if hasSub openPat template.data = false then .ok (.Plain template)
  else
    match svGo template.data.length template.data with
    | .error e => .error e
    | .ok (f, vs) =>
      if vs.isEmpty then .ok (.Plain (String.mk f)) else .ok (.Template (String.mk f) vs)

/-- Helper `Expr::str` (every policy-side string passes through the
interpolator). -/
def Expr.str (s : String) : Except Error Expr :=
  (substitute_variables s).map Expr.ofStr

/-! ## Builtin call helpers (`functions.rs::Func`) -/

/-- Rust `str::rsplit_once('.')`: split at the last dot. -/
def rsplitOnceDot : List Char → Option (List Char × List Char)
  | [] => none
  | c :: rest =>
    match rsplitOnceDot rest with
    | some (a, b) => some (c :: a, b)
    | none => if c = '.' then some ([], rest) else none

/-- Helper `Func::glob`. -/
def Func.glob (lhs rhs : Expr) : Expr :=
  Expr.call "glob.match" [lhs, Expr.var "null", rhs]

/-- Helper `Func::lower`. -/
def Func.lower (lhs : Expr) : Expr := Expr.call "lower" [lhs]

/-- Helper `Func::cidr_contains`. -/
def Func.cidr_contains (cidr ip : Expr) : Expr :=
  Expr.call "net.cidr_contains" [cidr, ip]

/-- Helper `Func::datetime`. -/
def Func.datetime (dt : Expr) : Expr :=
  Expr.call "time.parse_rfc3339_ns" [dt]

/-- Helper `Func::arn_like`. -/
def Func.arn_like (lhs rhs : Expr) : Expr := Expr.call "arn_like" [lhs, rhs]

/-- Helper `Func::to_array`: iteration-safe rewrite of a possibly
missing context attribute.  Note that a non-`Var` argument is returned
unchanged, and a `Var` without a dot is wrapped directly. -/
def Func.to_array (expr : Expr) : Expr :=
  match expr with
  | .Var path =>
    match rsplitOnceDot path.data with
    | some (object, key) =>
      Expr.call "to_array"
        [Expr.call "object.get"
          [Expr.var (String.mk object), Expr.var (String.mk ('"' :: key ++ ['"'])), Expr.List []]]
    | none => Expr.call "to_array" [.Var path]
  | _ => expr

/-! ## Condition translator (`conditions.rs`) -/

/-- Order-preserving fallible map, `values.rs::Value::map`. -/
def Value.map {α β : Type} (v : Value α) (f : α → Except Error β) : Except Error (Value β) :=
  match v with
  | .One one => (f one).map Value.One
  | .Many list => (list.mapM f).map Value.Many

/-- The negation bit of an operator, `conditions.rs::Negatable::is_neg`. -/
def ConditionOperator.is_neg (op : ConditionOperator) : Bool :=
  match op.operator with
  | .StringNotEquals | .StringNotEqualsIgnoreCase | .NumericNotEquals
  | .StringNotLike | .NotIpAddress | .DateNotEquals => true
  | _ => false

/-- Quantifier application, `conditions.rs::Negatable::apply`.  The Rust
code unwraps `self.quantifier`; `compare` only calls it when the
quantifier is present, so the `none` arm (a Rust panic) is modelled as a
generic error. -/
def ConditionOperator.apply (op : ConditionOperator) (ctxvalue : Expr) (polvalues : List Expr)
    (negative : Bool) (expr : Expr → Expr → Expr) : Except Error Expr :=
  match op.quantifier, negative with
  | none, _ => .error (.GenericError "quantifier unwrap on None")
  | some _, true =>
    let outer_var := Expr.item
    let inner_var := Expr.var "val"
    let inner := Expr.Every inner_var (Expr.list polvalues) (expr inner_var outer_var)
    .ok (Expr.Every outer_var (Func.to_array ctxvalue) inner)
  | some .ForAnyValue, false =>
    .ok (expr (Expr.AnyIn (Expr.list polvalues)) (Expr.AnyIn (Func.to_array ctxvalue)))
  | some .ForAllValues, false =>
    let condition := expr (Expr.AnyIn (Expr.list polvalues)) Expr.item
    .ok (Expr.Every Expr.item (Func.to_array ctxvalue) condition)

/-- Replace every slash by a dot (Rust `str::replace('/', ".")`). -/
def replaceSlashes (s : String) : String :=
  String.mk (s.data.map (fun c => if c = '/' then '.' else c))

/-- Attribute resolution, `conditions.rs::resolve`. -/
def resolve (var : QString) : Except Error Expr :=
  match var.qualifier with
  | some q => .ok (Expr.var ("input." ++ q ++ "." ++ replaceSlashes var.value))
  | none => .ok (Expr.var ("input." ++ replaceSlashes var.toString))

/-- Rust `Debug` rendering of a condition value, used in `InvalidType`
messages. -/
def debugCV : ConditionValue → String
  | .String s => "String(\"" ++ s ++ "\")"
  | .Integer i => "Integer(" ++ ToString.toString i ++ ")"
  | .Float p => "Float(" ++ p ++ ")"
  | .Bool b => "Bool(" ++ (if b then "true" else "false") ++ ")"

/-- Boolean coercion, `conditions.rs::to_bool`. -/
def to_bool (s : ConditionValue) : Except Error Expr :=
  match s with
  | .Bool b => Expr.bool b
  | .String str =>
    if str = "true" then Expr.bool true
    else if str = "false" then Expr.bool false
    else .error (.InvalidType "bool" (debugCV s))
  | _ => .error (.InvalidType "bool" (debugCV s))

/-- String coercion, `conditions.rs::to_str`. -/
def to_str (s : ConditionValue) : Except Error Expr :=
  match s with
  | .String str => Expr.str str
  | _ => .error (.InvalidType "string" (debugCV s))

/-- Digit-sequence parsing used to model Rust `i64::from_str` (at least
one decimal digit; overflow, which the model's unbounded `Int` cannot
hit, aside). -/
def natOfDigits (l : List Char) : Option Nat :=
  if l.isEmpty then none
  else l.foldlM (fun acc c => if c.isDigit then some (acc * 10 + (c.toNat - 48)) else none) 0

/-- Integer-string parsing: optional sign, then digits (Rust
`i64::from_str`). -/
def parseIntStr (s : String) : Option Int :=
  match s.data with
  | '+' :: ds => (natOfDigits ds).map Int.ofNat
  | '-' :: ds => (natOfDigits ds).map (fun n => -(n : Int))
  | ds => (natOfDigits ds).map Int.ofNat

/-- Integer coercion, `conditions.rs::to_int`. -/
def to_int (s : ConditionValue) : Except Error Expr :=
  match s with
  | .Integer i => Expr.int i
  | .String str =>
    match parseIntStr str with
    | some i => Expr.int i
    | none => .error (.InvalidType "integer" str)
  | _ => .error (.InvalidType "integer" (debugCV s))

/-- The generic comparison builder, `conditions.rs::compare`. -/
def compare (operator : ConditionOperator) (condition : List CondPair)
    (converter : ConditionValue → Except Error Expr) (build_expr : Expr → Expr → Expr) :
    Except Error (List Expr) :=
  let is_neg := operator.is_neg
  condition.foldlM
    (fun acc pair => do
      let ctxvalue ← resolve pair.1
      let v ← pair.2.map converter
      let e ←
        match v, operator.quantifier with
        | .One polvalue, some _ => operator.apply ctxvalue [polvalue] is_neg build_expr
        | .One polvalue, none => pure (build_expr polvalue ctxvalue)
        | .Many polvalues, some _ => operator.apply ctxvalue polvalues is_neg build_expr
        | .Many polvalues, none =>
          match is_neg with
          | false => pure (build_expr (Expr.AnyIn (Expr.list polvalues)) ctxvalue)
          | true => Expr.every polvalues (fun polvalue => .ok (build_expr polvalue ctxvalue))
      pure (acc ++ [e]))
    []

/-- The condition translator, `conditions.rs::build_condition`. -/
def build_condition (operator : ConditionOperator) (condition : List CondPair) :
    Except Error (List Expr) :=
  match operator.operator with
  | .Bool =>
    condition.foldlM
      (fun acc pair => do
        let v ← pair.2.map to_bool
        let e ←
          match v with
          | .One one => do pure (Expr.Eq (← resolve pair.1) one)
          | .Many list => do pure (Expr.Eq (Expr.AnyIn (Expr.list list)) (← resolve pair.1))
        pure (acc ++ [e]))
      []
  | .StringEquals => compare operator condition to_str (fun polvalue ctxvalue => Expr.Eq polvalue ctxvalue)
  | .StringNotEquals => compare operator condition to_str (fun polvalue ctxvalue => Expr.Ne polvalue ctxvalue)
  | .StringEqualsIgnoreCase =>
    compare operator condition to_str (fun polvalue ctxvalue => Expr.Eq (Func.lower polvalue) (Func.lower ctxvalue))
  | .StringNotEqualsIgnoreCase =>
    compare operator condition to_str (fun polvalue ctxvalue => Expr.Ne (Func.lower polvalue) (Func.lower ctxvalue))
  | .StringLike => compare operator condition to_str Func.glob
  | .StringNotLike => compare operator condition to_str (fun polvalue ctxvalue => Expr.neg (Func.glob polvalue ctxvalue))
  | .NumericEquals => compare operator condition to_int (fun polvalue ctxvalue => Expr.Eq polvalue ctxvalue)
  | .NumericNotEquals => compare operator condition to_int (fun polvalue ctxvalue => Expr.Ne polvalue ctxvalue)
  | .NumericLessThan => compare operator condition to_int (fun polvalue ctxvalue => Expr.Lt ctxvalue polvalue)
  | .NumericLessThanEquals => compare operator condition to_int (fun polvalue ctxvalue => Expr.Lte ctxvalue polvalue)
  | .NumericGreaterThan => compare operator condition to_int (fun polvalue ctxvalue => Expr.Gt ctxvalue polvalue)
  | .NumericGreaterThanEquals => compare operator condition to_int (fun polvalue ctxvalue => Expr.Gte ctxvalue polvalue)
  | .DateEquals =>
    compare operator condition to_str (fun polvalue ctxvalue => Expr.Eq (Func.datetime polvalue) (Func.datetime ctxvalue))
  | .DateNotEquals =>
    compare operator condition to_str (fun polvalue ctxvalue => Expr.Ne (Func.datetime polvalue) (Func.datetime ctxvalue))
  | .DateGreaterThan =>
    compare operator condition to_str (fun polvalue ctxvalue => Expr.Gt (Func.datetime ctxvalue) (Func.datetime polvalue))
  | .DateGreaterThanEquals =>
    compare operator condition to_str (fun polvalue ctxvalue => Expr.Gte (Func.datetime ctxvalue) (Func.datetime polvalue))
  | .DateLessThan =>
    compare operator condition to_str (fun polvalue ctxvalue => Expr.Lt (Func.datetime ctxvalue) (Func.datetime polvalue))
  | .DateLessThanEquals =>
    compare operator condition to_str (fun polvalue ctxvalue => Expr.Lte (Func.datetime ctxvalue) (Func.datetime polvalue))
  | .IpAddress => compare operator condition to_str Func.cidr_contains
  | .NotIpAddress => compare operator condition to_str (fun polvalue ctxvalue => Expr.neg (Func.cidr_contains polvalue ctxvalue))
  | .Other s => .error (.UnsupportedFunction s)

/-! ## Scope and statement translator (`statement.rs`) -/

/-- Scope dimension, `statement.rs::ScopeType`. -/
inductive ScopeType where
  | Principal
  | Action
  | Resource
deriving DecidableEq

/-- Request attribute of a scope, `ScopeType::input_var`. -/
def ScopeType.input_var : ScopeType → String
  | .Principal => "input.principal"
  | .Action => "input.action"
  | .Resource => "input.resource"

/-- Rust `str::contains(char)`. -/
def strContainsChar (s : String) (c : Char) : Bool := s.data.contains c

/-- One IAM statement after scope extraction, `statement.rs::Statement`. -/
structure Statement where
  effect : Effect
  principals : Scope String
  actions : Scope String
  resources : Scope String
  conditions : Conditions

/-- Translation of one scope dimension: the body of the `for` loop in
`Statement::generate` for a single `(kind, scope)` pair, in the source's
match-arm order. -/
def scope_expr (kind : ScopeType) (scope : Scope String) : Except Error (Option Expr) :=
  let negated := match scope with | .Not _ => true | .Id _ => false
  let op : Expr → Expr → Expr := match scope with | .Id _ => Expr.Eq | .Not _ => Expr.Ne
  let id : Expr → Expr := match scope with | .Id _ => Expr.id | .Not _ => Expr.neg
  let scopes := match scope with | .Id v => v | .Not v => v
  match scopes with
  | .One one =>
    if one = "*" then .ok none
    else if strContainsChar one '*' then do
      pure (some (id (Expr.call "glob.match" [← Expr.str one, Expr.var "null", Expr.var kind.input_var])))
    else do
      pure (some (op (Expr.var kind.input_var) (← Expr.str one)))
  | .Many list =>
    if list.all (fun i => i = "*") then .ok none
    else if list.any (fun i => strContainsChar i '*') then
      match negated with
      | false => do
        pure (some (id (Func.glob (Expr.AnyIn (Expr.list (← list.mapM Expr.str))) (Expr.var kind.input_var))))
      | true => do
        let e ← Expr.every (← list.mapM Expr.str) (fun e => .ok (id (Func.glob e (Expr.var kind.input_var))))
        pure (some e)
    else
      match negated with
      | false => do
        pure (some (op (Expr.AnyIn (Expr.list (← list.mapM Expr.str))) (Expr.var kind.input_var)))
      | true => do
        let e ← Expr.every (← list.mapM Expr.str) (fun e => .ok (op e (Expr.var kind.input_var)))
        pure (some e)

/-- Statement translation, `statement.rs::Statement::generate`. -/
def Statement.generate (s : Statement) : Except Error Expr := do
  let p ← scope_expr .Principal s.principals
  let a ← scope_expr .Action s.actions
  let r ← scope_expr .Resource s.resources
  pure (.Statement s.effect (p.toList ++ a.toList ++ r.toList) s.conditions)

/-! ## Emission (`expression.rs::Repr`) -/

mutual

/-- Textual rendering of a non-`Statement` IR node
(`expression.rs::Repr::repr`).  `Statement` nodes are rendered by
`Expr.repr` below; the translator constructs them only at the top level
of a policy (in `Statement::generate`), never nested under another
expression, so the `Statement` arm here is unreachable and is modelled
as a generic error. -/
def reprFlat : Expr → Except Error String
  | .Statement _ _ _ => .error (.GenericError "nested statement")
  | .Call fn args => do pure (fn ++ "(" ++ String.intercalate ", " (← reprArgs args) ++ ")")
  | .Var v => pure v
  | .List es => do pure ("[" ++ String.intercalate ", " (← reprArgs es) ++ "]")
  | .AnyIn e => do pure ((← reprFlat e) ++ "[_]")
  | .Bool b => pure (if b then "true" else "false")
  | .StrPlain s => pure ("\"" ++ s ++ "\"")
  | .StrTemplate t vars => do
    pure ("sprintf(" ++ "\"" ++ t ++ "\"" ++ ", " ++ "[" ++ String.intercalate ", " (← reprArgs vars) ++ "]" ++ ")")
  | .Int i => pure (ToString.toString i)
  | .Neg e => do pure ("not " ++ (← reprFlat e))
  | .Eq l r => do pure ((← reprFlat l) ++ " == " ++ (← reprFlat r))
  | .Ne l r => do pure ((← reprFlat l) ++ " != " ++ (← reprFlat r))
  | .Gt l r => do pure ((← reprFlat l) ++ " > " ++ (← reprFlat r))
  | .Gte l r => do pure ((← reprFlat l) ++ " >= " ++ (← reprFlat r))
  | .Lt l r => do pure ((← reprFlat l) ++ " < " ++ (← reprFlat r))
  | .Lte l r => do pure ((← reprFlat l) ++ " <= " ++ (← reprFlat r))
  | .Every v iter body => do
    pure ("every " ++ (← reprFlat v) ++ " in " ++ (← reprFlat iter) ++ " \x7b " ++ (← reprFlat body) ++ " \x7d")

/-- Renders a list of IR nodes (`expression.rs::Repr for &[T]`, minus the
brackets, which each caller adds). -/
def reprArgs : List Expr → Except Error (List String)
  | [] => pure []
  | e :: rest => do pure ((← reprFlat e) :: (← reprArgs rest))

end

/-- Textual rendering of an IR node, `expression.rs::Repr::repr`.  The
`Statement` arm lowers the stored conditions by calling
`build_condition` at emission time. -/
def Expr.repr (e : Expr) : Except Error String :=
  match e with
  | .Statement effect exprs conditions => do
    let head :=
      match effect with
      | .Allow => "permit if \x7b\n"
      | .Deny => "deny if \x7b\n"
    let body ← exprs.mapM (fun ex => do pure ("  " ++ (← reprFlat ex) ++ "\n"))
    let conds ← conditions.mapM (fun oc => do
      let es ← build_condition oc.1 oc.2
      es.mapM (fun c => do pure ("  " ++ (← reprFlat c) ++ "\n")))
    pure (head ++ String.join body ++ String.join conds.flatten ++ "\x7d\n")
  | other => reprFlat other

/-! ## Policy assembly (`parser.rs`) -/

/-- The fixed preamble, `parser.rs::BASE`. -/
def BASE : String :=
  "package main\ndefault allow = false\ndefault deny = false\ndefault permit = false\nto_array(x) := x if \x7b is_array(x) \x7d\nto_array(x) := [x] if \x7b not is_array(x) \x7d\narn_like(lhs, rhs) if \x7b\n  count(indexof_n(lhs, \":\")) == 5\n  count(indexof_n(rhs, \":\")) == 5\n  glob.match(lhs, [\":\"], rhs)\n\x7d\nallow if \x7b\n  permit\n  not deny\n\x7d"

/-- Internal AST for an IAM policy, `parser.rs::Policy`. -/
structure Policy where
  exprs : List Expr

/-- Policy serialization, `parser.rs::Policy::serialize`: the preamble
followed by every translated statement, accumulated in input order. -/
def Policy.serialize (p : Policy) : Except Error String :=
  p.exprs.foldlM (fun buf statement => do pure (buf ++ (← statement.repr))) (BASE ++ "\n")

/-- Effect of the external IAM AST, `aws_iam::model::Effect`. -/
inductive AwsEffect where
  | Allow
  | Deny
deriving DecidableEq

/-- Principal type of the external IAM AST, `aws_iam::model::PrincipalType`. -/
inductive PrincipalType where
  | AWS
  | Federated
  | Service
  | CanonicalUser
deriving DecidableEq

/-- External scalar-or-array-or-wildcard, `aws_iam::model::OneOrAny`. -/
inductive OneOrAny (α : Type) where
  | Any
  | One (a : α)
  | AnyOf (l : List α)

/-- External principal clause, `aws_iam::model::Principal` (the map from
principal type to values is modelled as an association list). -/
inductive Principal where
  | Principal (m : List (PrincipalType × OneOrAny String))
  | NotPrincipal (m : List (PrincipalType × OneOrAny String))

/-- External action clause, `aws_iam::model::Action`. -/
inductive Action where
  | Action (a : OneOrAny QString)
  | NotAction (a : OneOrAny QString)

/-- External resource clause, `aws_iam::model::Resource`. -/
inductive Resource where
  | Resource (r : OneOrAny String)
  | NotResource (r : OneOrAny String)

/-- External scalar-or-array, `aws_iam::model::OneOrAll`. -/
inductive OneOrAll (α : Type) where
  | One (a : α)
  | All (l : List α)

/-- One statement of the external IAM AST (the fields of
`aws_iam::model::Statement` read by `parse_iam_policy`). -/
structure AwsStatement where
  effect : AwsEffect
  principal : Option Principal
  action : Action
  resource : Resource
  condition : Option (List (ConditionOperator × List (QString × OneOrAll ConditionValue)))

/-- Outcome of a parse-level computation.  Rust code that calls
`Option::unwrap` can panic; `panics` records that outcome so the model
distinguishes it from a returned error. -/
inductive POut (α : Type) where
  | ok (a : α)
  | err (e : Error)
  | panics (msg : String)

/-- Sequencing for `POut` (short-circuits on error and panic, like `?`
and unwinding in Rust). -/
def POut.bind {α β : Type} : POut α → (α → POut β) → POut β
  | .ok a, f => f a
  | .err e, _ => .err e
  | .panics m, _ => .panics m

instance : Monad POut where
  pure := .ok
  bind := POut.bind

/-- Lifts the translator's `Except` results into `POut`. -/
def POut.ofExcept {α : Type} : Except Error α → POut α
  | .ok a => .ok a
  | .error e => .err e

/-- Association-list lookup modelling `HashMap::get`. -/
def assocGet (m : List (PrincipalType × OneOrAny String)) (k : PrincipalType) :
    Option (OneOrAny String) :=
  (m.find? (fun p => p.1 == k)).map (fun p => p.2)

/-- Principal translation: the `match statement.principal` block of
`parse_iam_policy` (parser.rs lines 86-97).  The Rust code calls
`p.get(&PrincipalType::AWS).unwrap()`, which panics when the principal
map has no `AWS` entry. -/
def parse_principal (p : Option Principal) : POut (Scope String) :=
  match p with
  | none => .ok (.Id (.One "*"))
  | some (.Principal m) =>
    match assocGet m PrincipalType.AWS with
    | none => .panics "called Option::unwrap on a None value"
    | some (.AnyOf list) => .ok (.Id (.Many list))
    | some (.One one) => .ok (.Id (.One one))
    | some .Any => .err .UnsupportedPrincipalType
  | some (.NotPrincipal _) => .err .UnsupportedNegation

/-- Action translation: the `match statement.action` block of
`parse_iam_policy`. -/
def parse_action (a : Action) : POut (Scope String) :=
  match a with
  | .Action .Any => .err .UnsupportedWildcard
  | .Action (.One one) => .ok (.Id (.One one.toString))
  | .Action (.AnyOf list) => .ok (.Id (.Many (list.map QString.toString)))
  | .NotAction .Any => .err .UnsupportedWildcard
  | .NotAction (.One one) => .ok (.Not (.One one.toString))
  | .NotAction (.AnyOf list) => .ok (.Not (.Many (list.map QString.toString)))

/-- Resource translation: the `match statement.resource` block of
`parse_iam_policy`. -/
def parse_resource (r : Resource) : POut (Scope String) :=
  match r with
  | .Resource .Any => .err .UnsupportedWildcard
  | .Resource (.One one) => .ok (.Id (.One one))
  | .Resource (.AnyOf list) => .ok (.Id (.Many list))
  | .NotResource .Any => .err .UnsupportedWildcard
  | .NotResource (.One one) => .ok (.Not (.One one))
  | .NotResource (.AnyOf list) => .ok (.Not (.Many list))

/-- Condition collection: the condition loop of `parse_iam_policy`
(operators and attribute pairs are kept in input order, values mapped
`OneOrAll -> Value`, and nothing is lowered). -/
def collect_conditions
    (c : Option (List (ConditionOperator × List (QString × OneOrAll ConditionValue)))) :
    Conditions :=
  (c.getD []).map (fun oc =>
    (oc.1, oc.2.map (fun av =>
      (av.1, match av.2 with
             | .All list => Value.Many list
             | .One one => Value.One one))))

/-- Translation of one statement: the loop body of
`parser.rs::parse_iam_policy`. -/
def parse_statement (statement : AwsStatement) : POut Expr := do
  let effect := match statement.effect with | .Allow => Effect.Allow | .Deny => Effect.Deny
  let principals ← parse_principal statement.principal
  let actions ← parse_action statement.action
  let resources ← parse_resource statement.resource
  let conditions := collect_conditions statement.condition
  POut.ofExcept (Statement.generate
    { effect := effect, principals := principals, actions := actions,
      resources := resources, conditions := conditions })

/-- Policy parsing, `parser.rs::parse_iam_policy` (the JSON reading of
the external `aws_iam` crate is out of scope; its output AST is the
input here). -/
def parse_iam_policy (statements : List AwsStatement) : POut Policy := do
  let out ← statements.mapM parse_statement
  pure { exprs := out }

/-! ## Supporting lemmas -/

/-- Bind on `Except` over a success short-circuits to the continuation. -/
theorem exceptBind_ok {α β : Type} (a : α) (f : α → Except Error β) :
    (Except.ok a >>= f) = f a := rfl

/-- Bind on `Except` over an error short-circuits to that error. -/
theorem exceptBind_err {α β : Type} (e : Error) (f : α → Except Error β) :
    ((Except.error e : Except Error α) >>= f) = .error e := rfl

/-- Policy-value list of a converted value, as `compare` passes it to
`ConditionOperator.apply`: a scalar is wrapped into a one-element list. -/
def polList : Value Expr → List Expr
  | .One p => [p]
  | .Many ps => ps

/-- Underlying values of a scope (the `scopes` binding in
`Statement::generate`). -/
def Scope.values {α : Type} : Scope α → Value α
  | .Id v => v
  | .Not v => v

/-- A scope is a pure wildcard: the single literal star, or a list made
only of stars. -/
def wildcardScope (sc : Scope String) : Prop :=
  sc.values = Value.One "*" ∨ ∃ l, sc.values = Value.Many l ∧ ∀ x ∈ l, x = "*"

/-- A list that is not all stars fails the all-star guard. -/
theorem all_star_false {l : List String} (h1 : ¬ ∀ x ∈ l, x = "*") :
    (l.all fun i => i = "*") = false := by
  rw [Bool.eq_false_iff]
  simpa [List.all_eq_true] using h1

/-- A list with no globbing element fails the any-glob guard. -/
theorem any_contains_false {l : List String} (h2 : ∀ x ∈ l, strContainsChar x '*' = false) :
    (l.any fun i => strContainsChar i '*') = false := by
  rw [List.any_eq_false]
  intro x hx
  simp [h2 x hx]

/-- Interface between `List.mapM` and its accumulator loop, used to
rewrite elaborated goals. -/
theorem mapM_loop_of_mapM {l : List String} {es : List Expr} (h : l.mapM Expr.str = .ok es) :
    List.mapM.loop Expr.str l [] = .ok es := h

/-- A dot inside the character list makes `rsplitOnceDot` succeed. -/
theorem rsplit_some_of_mem {l : List Char} (h : '.' ∈ l) :
    ∃ a b, rsplitOnceDot l = some (a, b) := by
  induction l with
  | nil => cases h
  | cons c rest ih =>
    rcases hm : rsplitOnceDot rest with _ | ⟨a, b⟩
    · cases h with
      | head => simp [rsplitOnceDot, hm]
      | tail _ h =>
        obtain ⟨a, b, hab⟩ := ih h
        rw [hab] at hm
        cases hm
    · simp [rsplitOnceDot, hm]

/-- On any resolved condition attribute, `Func::to_array` produces the
iteration-safe shape over an `object.get` lookup: resolved attributes
always start with the dotted prefix `input.`, so the variable path
splits at its last dot. -/
theorem to_array_objget (attr : QString) (ctx : Expr) (hr : resolve attr = .ok ctx) :
    ∃ obj key, Func.to_array ctx =
      Expr.call "to_array" [Expr.call "object.get" [Expr.var obj, Expr.var key, Expr.List []]] := by
  have hdot : ∃ v : String, ctx = Expr.Var v ∧ '.' ∈ v.data := by
    cases hq : attr.qualifier with
    | some q =>
      refine ⟨"input." ++ q ++ "." ++ replaceSlashes attr.value, ?_, ?_⟩
      · have := hr
        rw [resolve, hq] at this
        simpa [Expr.var] using this.symm
      · simp [String.data_append]
    | none =>
      refine ⟨"input." ++ replaceSlashes attr.toString, ?_, ?_⟩
      · have := hr
        rw [resolve, hq] at this
        simpa [Expr.var] using this.symm
      · simp [String.data_append]
  obtain ⟨v, hv, hm⟩ := hdot
  obtain ⟨a, b, hab⟩ := rsplit_some_of_mem hm
  subst hv
  refine ⟨String.mk a, String.mk ('"' :: b ++ ['"']), ?_⟩
  simp [Func.to_array, hab, Expr.call, Expr.var]

/-! ## Claims -/

/-- C1: on a quantified condition, a positive operator yields exactly
one expression per attribute pair — the `ForAnyValue` shape
`BASE(AnyIn(List(pols)), AnyIn(to_array(ctx)))` or the `ForAllValues`
shape `Every(item in to_array(ctx), BASE(AnyIn(List(pols)), item))` —
and a negated operator yields the identical nested shape
`Every(item in to_array(ctx), Every(val in List(pols), BASE(val, item)))`
under either quantifier; the `to_array(ctx)` term is the
`to_array(object.get(obj, key, []))` lookup. -/
theorem claim_C1 (op : ConditionOperator) (attr : QString) (vals : Value ConditionValue)
    (conv : ConditionValue → Except Error Expr) (f : Expr → Expr → Expr)
    (q : ConditionOperatorQuantifier) (v : Value Expr) (ctx : Expr)
    (hq : op.quantifier = some q) (hv : vals.map conv = .ok v) (hr : resolve attr = .ok ctx) :
    (op.is_neg = false → q = .ForAnyValue →
      compare op [(attr, vals)] conv f =
        .ok [f (Expr.AnyIn (Expr.list (polList v))) (Expr.AnyIn (Func.to_array ctx))]) ∧
    (op.is_neg = false → q = .ForAllValues →
      compare op [(attr, vals)] conv f =
        .ok [Expr.Every Expr.item (Func.to_array ctx)
              (f (Expr.AnyIn (Expr.list (polList v))) Expr.item)]) ∧
    (op.is_neg = true →
      compare op [(attr, vals)] conv f =
        .ok [Expr.Every Expr.item (Func.to_array ctx)
              (Expr.Every (Expr.var "val") (Expr.list (polList v)) (f (Expr.var "val") Expr.item))]) ∧
    (∃ obj key, Func.to_array ctx =
      Expr.call "to_array" [Expr.call "object.get" [Expr.var obj, Expr.var key, Expr.List []]]) := by
  refine ⟨?_, ?_, ?_, to_array_objget attr ctx hr⟩
  · intro hneg hqq
    subst hqq
    cases v with
    | One p =>
      simp [compare, List.foldlM, hr, hv, ConditionOperator.apply, hq, hneg, polList, exceptBind_ok]
    | Many ps =>
      simp [compare, List.foldlM, hr, hv, ConditionOperator.apply, hq, hneg, polList, exceptBind_ok]
  · intro hneg hqq
    subst hqq
    cases v with
    | One p =>
      simp [compare, List.foldlM, hr, hv, ConditionOperator.apply, hq, hneg, polList, exceptBind_ok]
    | Many ps =>
      simp [compare, List.foldlM, hr, hv, ConditionOperator.apply, hq, hneg, polList, exceptBind_ok]
  · intro hneg
    cases v with
    | One p =>
      simp [compare, List.foldlM, hr, hv, ConditionOperator.apply, hq, hneg, polList, exceptBind_ok,
        Expr.item, Expr.var, Expr.list]
    | Many ps =>
      simp [compare, List.foldlM, hr, hv, ConditionOperator.apply, hq, hneg, polList, exceptBind_ok,
        Expr.item, Expr.var, Expr.list]

/-- Witness for C1 at `ForAnyValue:StringEquals` on a scalar policy
value. -/
theorem claim_C1_witness :
    compare ⟨some .ForAnyValue, .StringEquals⟩
        [(⟨none, "tags"⟩, Value.One (ConditionValue.String "production"))] to_str
        (fun p c => Expr.Eq p c) =
      .ok [Expr.Eq (Expr.AnyIn (Expr.list [Expr.StrPlain "production"]))
            (Expr.AnyIn (Func.to_array (Expr.Var "input.tags")))] :=
  (claim_C1 ⟨some .ForAnyValue, .StringEquals⟩ ⟨none, "tags"⟩
    (Value.One (ConditionValue.String "production")) to_str (fun p c => Expr.Eq p c)
    .ForAnyValue (Value.One (Expr.StrPlain "production")) (Expr.Var "input.tags")
    rfl rfl rfl).1 rfl rfl

/-- C3: a scope made only of the wildcard star — a single literal star
or a list whose every element is a star — contributes no conjunct to the
generated rule body; a statement with all three scopes wildcard has an
empty body. -/
theorem claim_C3 :
    (∀ (kind : ScopeType) (sc : Scope String), wildcardScope sc → scope_expr kind sc = .ok none) ∧
    (∀ (eff : Effect) (pr ac re : Scope String) (conds : Conditions),
      wildcardScope pr → wildcardScope ac → wildcardScope re →
      Statement.generate ⟨eff, pr, ac, re, conds⟩ = .ok (.Statement eff [] conds)) := by
  have hscope : ∀ (kind : ScopeType) (sc : Scope String), wildcardScope sc →
      scope_expr kind sc = .ok none := by
    intro kind sc hw
    have hvals : sc.values = Value.One "*" ∨
        ∃ l, sc.values = Value.Many l ∧ ∀ x ∈ l, x = "*" := hw
    rcases hvals with h | ⟨l, hl, hstar⟩
    · cases sc with
      | Id v =>
        have : v = Value.One "*" := h
        subst this
        simp [scope_expr]
      | Not v =>
        have : v = Value.One "*" := h
        subst this
        simp [scope_expr]
    · have hall : (l.all fun i => i = "*") = true := by
        simp only [List.all_eq_true, decide_eq_true_eq]
        exact hstar
      cases sc with
      | Id v =>
        have : v = Value.Many l := hl
        subst this
        simp [scope_expr, hall]
      | Not v =>
        have : v = Value.Many l := hl
        subst this
        simp [scope_expr, hall]
  refine ⟨hscope, ?_⟩
  intro eff pr ac re conds hp ha hr
  simp [Statement.generate, hscope .Principal pr hp, hscope .Action ac ha,
    hscope .Resource re hr, exceptBind_ok]

/-- Witness for C3 on the three wildcard forms. -/
theorem claim_C3_witness :
    scope_expr .Principal (.Id (.One "*")) = .ok none ∧
    scope_expr .Action (.Not (.Many ["*", "*"])) = .ok none ∧
    Statement.generate ⟨.Allow, .Id (.One "*"), .Id (.Many ["*"]), .Not (.One "*"), []⟩ =
      .ok (.Statement .Allow [] []) :=
  ⟨claim_C3.1 .Principal (.Id (.One "*")) (Or.inl rfl),
   claim_C3.1 .Action (.Not (.Many ["*", "*"])) (Or.inr ⟨["*", "*"], rfl, by decide⟩),
   claim_C3.2 .Allow (.Id (.One "*")) (.Id (.Many ["*"])) (.Not (.One "*")) []
     (Or.inl rfl) (Or.inr ⟨["*"], rfl, by decide⟩) (Or.inl rfl)⟩

/-- C4: a `Not`-scoped list without globs becomes
`every item in [list] (item != ctx)`; with a glob it becomes
`every item in [list] (not glob.match(item, null, ctx))`; a `Not`-scoped
single value becomes `ctx != s` without a star and
`not glob.match(s, null, ctx)` with one. -/
theorem claim_C4 :
    (∀ (kind : ScopeType) (l : List String) (es : List Expr),
      (¬ ∀ x ∈ l, x = "*") → (∀ x ∈ l, strContainsChar x '*' = false) →
      l.mapM Expr.str = .ok es →
      scope_expr kind (.Not (.Many l)) =
        .ok (some (Expr.Every Expr.item (Expr.List es)
          (Expr.Ne Expr.item (Expr.Var kind.input_var))))) ∧
    (∀ (kind : ScopeType) (l : List String) (es : List Expr),
      (¬ ∀ x ∈ l, x = "*") → (∃ x ∈ l, strContainsChar x '*' = true) →
      l.mapM Expr.str = .ok es →
      scope_expr kind (.Not (.Many l)) =
        .ok (some (Expr.Every Expr.item (Expr.List es)
          (Expr.Neg (Expr.Call "glob.match" [Expr.item, Expr.Var "null", Expr.Var kind.input_var]))))) ∧
    (∀ (kind : ScopeType) (s : String) (e : Expr),
      s ≠ "*" → strContainsChar s '*' = false → Expr.str s = .ok e →
      scope_expr kind (.Not (.One s)) = .ok (some (Expr.Ne (Expr.Var kind.input_var) e))) ∧
    (∀ (kind : ScopeType) (s : String) (e : Expr),
      s ≠ "*" → strContainsChar s '*' = true → Expr.str s = .ok e →
      scope_expr kind (.Not (.One s)) =
        .ok (some (Expr.Neg (Expr.Call "glob.match" [e, Expr.Var "null", Expr.Var kind.input_var])))) := by
  refine ⟨?_, ?_, ?_, ?_⟩
  · intro kind l es h1 h2 h3
    simp [scope_expr, all_star_false h1, any_contains_false h2, mapM_loop_of_mapM h3,
      Expr.every, Expr.list, Expr.var, Expr.item, exceptBind_ok]
  · intro kind l es h1 h2 h3
    have hany : (l.any fun i => strContainsChar i '*') = true := by
      simp only [List.any_eq_true]
      exact h2
    simp [scope_expr, all_star_false h1, hany, mapM_loop_of_mapM h3,
      Expr.every, Expr.list, Expr.var, Expr.item, Func.glob, Expr.call, Expr.neg, exceptBind_ok]
  · intro kind s e h1 h2 h3
    simp [scope_expr, h1, h2, h3, Expr.var]
  · intro kind s e h1 h2 h3
    simp [scope_expr, h1, h2, h3, Expr.var, Expr.call, Expr.neg]

/-- Witness for C4 on concrete `NotResource` and `NotAction` scopes. -/
theorem claim_C4_witness :
    scope_expr .Resource (.Not (.Many ["a", "b"])) =
      .ok (some (Expr.Every Expr.item (Expr.List [Expr.StrPlain "a", Expr.StrPlain "b"])
        (Expr.Ne Expr.item (Expr.Var "input.resource")))) ∧
    scope_expr .Resource (.Not (.Many ["a*", "b"])) =
      .ok (some (Expr.Every Expr.item (Expr.List [Expr.StrPlain "a*", Expr.StrPlain "b"])
        (Expr.Neg (Expr.Call "glob.match" [Expr.item, Expr.Var "null", Expr.Var "input.resource"])))) ∧
    scope_expr .Action (.Not (.One "abc")) =
      .ok (some (Expr.Ne (Expr.Var "input.action") (Expr.StrPlain "abc"))) ∧
    scope_expr .Action (.Not (.One "a*")) =
      .ok (some (Expr.Neg (Expr.Call "glob.match"
        [Expr.StrPlain "a*", Expr.Var "null", Expr.Var "input.action"]))) :=
  ⟨claim_C4.1 .Resource ["a", "b"] [Expr.StrPlain "a", Expr.StrPlain "b"]
      (by decide) (by decide) rfl,
   claim_C4.2.1 .Resource ["a*", "b"] [Expr.StrPlain "a*", Expr.StrPlain "b"]
      (by decide) ⟨"a*", by decide, by decide⟩ rfl,
   claim_C4.2.2.1 .Action "abc" (Expr.StrPlain "abc") (by decide) (by decide) rfl,
   claim_C4.2.2.2 .Action "a*" (Expr.StrPlain "a*") (by decide) (by decide) rfl⟩

/-- C5: under a set quantifier, a scalar policy value is translated
exactly like the one-element list holding it, so the `[v][_]` form is
preserved. -/
theorem claim_C5 (op : ConditionOperator) (attr : QString) (v : ConditionValue)
    (conv : ConditionValue → Except Error Expr) (f : Expr → Expr → Expr)
    (q : ConditionOperatorQuantifier) (hq : op.quantifier = some q) :
    compare op [(attr, Value.One v)] conv f = compare op [(attr, Value.Many [v])] conv f := by
  obtain ⟨ctx, hr⟩ : ∃ ctx, resolve attr = .ok ctx := by
    cases hA : attr.qualifier <;> simp [resolve, hA]
  cases hcv : conv v with
  | error e =>
    simp [compare, List.foldlM, Value.map, hcv, List.mapM, List.mapM.loop, hr, Except.map,
      exceptBind_ok]
  | ok p =>
    simp [compare, List.foldlM, Value.map, hcv, List.mapM, List.mapM.loop, hq, hr, Except.map,
      exceptBind_ok]

/-- Witness for C5 at `ForAllValues:StringEquals`. -/
theorem claim_C5_witness :
    compare ⟨some .ForAllValues, .StringEquals⟩
        [(⟨none, "tags"⟩, Value.One (ConditionValue.String "production"))] to_str
        (fun p c => Expr.Eq p c) =
      compare ⟨some .ForAllValues, .StringEquals⟩
        [(⟨none, "tags"⟩, Value.Many [ConditionValue.String "production"])] to_str
        (fun p c => Expr.Eq p c) :=
  claim_C5 ⟨some .ForAllValues, .StringEquals⟩ ⟨none, "tags"⟩ (ConditionValue.String "production")
    to_str (fun p c => Expr.Eq p c) .ForAllValues rfl

/-- A list without a slash maps to itself under slash replacement. -/
theorem map_slash_id {l : List Char} (h : l.contains '/' = false) :
    l.map (fun c => if c = '/' then '.' else c) = l := by
  induction l with
  | nil => rfl
  | cons c rest ih =>
    simp only [List.contains_cons, Bool.or_eq_false_iff, beq_eq_false_iff_ne, ne_eq] at h
    simp [List.map_cons, ih h.2]
    intro hc
    exact absurd hc.symm h.1

/-- Slash replacement is the identity on slash-free strings. -/
theorem replaceSlashes_no (s : String) (h : strContainsChar s '/' = false) :
    replaceSlashes s = s := by
  unfold replaceSlashes
  rw [map_slash_id h]

/-- Slash replacement turns a single slash between slash-free parts into
a dot. -/
theorem replaceSlashes_split (a b : String) (ha : strContainsChar a '/' = false)
    (hb : strContainsChar b '/' = false) :
    replaceSlashes (a ++ "/" ++ b) = a ++ "." ++ b := by
  unfold replaceSlashes
  have hd : (a ++ "/" ++ b).data = a.data ++ '/' :: b.data := by
    simp [String.data_append]
  rw [hd, List.map_append, map_slash_id ha]
  have : ((('/' :: b.data).map (fun c => if c = '/' then '.' else c))) = '.' :: b.data := by
    simp [map_slash_id hb]
  rw [this]
  cases a with
  | mk la =>
    cases b with
    | mk lb =>
      apply congrArg String.mk
      simp

/-- Counterexample to C6 as stated: condition-attribute resolution
accepts a name with two slashes — every slash is replaced by a dot and
no error is raised, so "no more than one slash is ever allowed" fails
for attributes. -/
theorem claim_C6_counterexample :
    resolve ⟨none, "a/b/c"⟩ = .ok (.Var "input.a.b.c") := rfl

/-- C6 (amended): a qualified attribute `q:name` resolves to
`input.q.name` and `q:a/b` to `input.q.a.b`, an unqualified `name` to
`input.name`; the more-than-one-slash restriction holds for
interpolation variable names (`validate_variable_expr` never accepts
such a name), while attribute resolution replaces every slash with a dot
and never errors. -/
theorem claim_C6 :
    (∀ (q name : String), strContainsChar name '/' = false →
      resolve ⟨some q, name⟩ = .ok (.Var ("input." ++ q ++ "." ++ name))) ∧
    (∀ (q a b : String), strContainsChar a '/' = false → strContainsChar b '/' = false →
      resolve ⟨some q, a ++ "/" ++ b⟩ = .ok (.Var ("input." ++ q ++ "." ++ (a ++ "." ++ b)))) ∧
    (∀ name : String, strContainsChar name '/' = false →
      resolve ⟨none, name⟩ = .ok (.Var ("input." ++ name))) ∧
    (∀ l : List Char, 1 < (l.filter (fun c => c = '/')).length →
      validate_variable_expr l ≠ .ok ()) := by
  refine ⟨?_, ?_, ?_, ?_⟩
  · intro q name h
    simp [resolve, replaceSlashes_no name h, Expr.var]
  · intro q a b ha hb
    simp [resolve, replaceSlashes_split a b ha hb, Expr.var]
  · intro name h
    simp [resolve, QString.toString, replaceSlashes_no name h, Expr.var]
  · intro l h hok
    unfold validate_variable_expr at hok
    split_ifs at hok <;> simp_all

/-- Witness for C6 on concrete attribute names and a two-slash
interpolation name. -/
theorem claim_C6_witness :
    resolve ⟨some "aws", "username"⟩ = .ok (.Var "input.aws.username") ∧
    resolve ⟨some "aws", "tags/region"⟩ = .ok (.Var "input.aws.tags.region") ∧
    resolve ⟨none, "time"⟩ = .ok (.Var "input.time") ∧
    validate_variable_expr "a/b/c".data ≠ .ok () := by
  refine ⟨?_, ?_, ?_, ?_⟩
  · exact claim_C6.1 "aws" "username" (by decide)
  · exact claim_C6.2.1 "aws" "tags" "region" (by decide) (by decide)
  · exact claim_C6.2.2.1 "time" (by decide)
  · exact claim_C6.2.2.2 "a/b/c".data (by decide)

/-- Bind on `POut` over a success short-circuits to the continuation. -/
theorem poutBind_ok {α β : Type} (a : α) (f : α → POut β) : (POut.ok a >>= f) = f a := rfl

/-- Bind on `POut` over an error short-circuits to that error. -/
theorem poutBind_err {α β : Type} (e : Error) (f : α → POut β) :
    ((POut.err e : POut α) >>= f) = .err e := rfl

/-- Bind on `POut` over a panic propagates the panic. -/
theorem poutBind_panics {α β : Type} (m : String) (f : α → POut β) :
    ((POut.panics m : POut α) >>= f) = .panics m := rfl

/-- C8: a missing principal defaults to the unconstrained `One "*")`,
`NotPrincipal` is rejected with `UnsupportedNegation`, and an `Any`
valued AWS principal is rejected with `UnsupportedPrincipalType`; but a
principal map without an `AWS` entry (a non-AWS-typed principal) makes
the code panic on `Option::unwrap` instead of returning
`UnsupportedPrincipalType` — the code contradicts the claim's
"never a panic". -/
theorem claim_C8 :
    parse_principal none = .ok (.Id (.One "*")) ∧
    (∀ m, parse_principal (some (.NotPrincipal m)) = .err .UnsupportedNegation) ∧
    (∀ m, assocGet m .AWS = some .Any →
      parse_principal (some (.Principal m)) = .err .UnsupportedPrincipalType) ∧
    (∀ m, assocGet m .AWS = none →
      parse_principal (some (.Principal m)) = .panics "called Option::unwrap on a None value") := by
  refine ⟨rfl, fun m => rfl, ?_, ?_⟩
  · intro m h
    simp [parse_principal, h]
  · intro m h
    simp [parse_principal, h]

/-- Witness for C8: an `Any` AWS principal errors, and a Service-typed
principal map panics. -/
theorem claim_C8_witness :
    parse_principal (some (.Principal [(.AWS, .Any)])) = .err .UnsupportedPrincipalType ∧
    parse_principal (some (.Principal [(.Service, .One "ec2.amazonaws.com")])) =
      .panics "called Option::unwrap on a None value" :=
  ⟨claim_C8.2.2.1 [(.AWS, .Any)] rfl,
   claim_C8.2.2.2 [(.Service, .One "ec2.amazonaws.com")] rfl⟩

/-- Concatenation of rendered statements, in order. -/
def joinAll : List String → String
  | [] => ""
  | s :: rest => s ++ joinAll rest

/-- The `mapM` accumulator loop prepends the reversed accumulator. -/
theorem mapM_loop_acc (f : Expr → Except Error String) (l : List Expr) (acc : List String) :
    List.mapM.loop f l acc = (l.mapM f).map (fun rs => acc.reverse ++ rs) := by
  induction l generalizing acc with
  | nil => simp [List.mapM.loop, List.mapM, Except.map, pure, Except.pure]
  | cons e rest ih =>
    cases h : f e with
    | error err =>
      simp [List.mapM, List.mapM.loop, h, Except.map, exceptBind_err]
    | ok b =>
      rw [List.mapM, List.mapM.loop, h]
      rw [show List.mapM.loop f (e :: rest) [] = f e >>= fun b => List.mapM.loop f rest [b] from rfl]
      rw [h]
      simp only [exceptBind_ok]
      rw [ih (b :: acc), ih [b]]
      cases hm : rest.mapM f with
      | error err => simp [hm, Except.map]
      | ok rs => simp [hm, Except.map]

/-- The serialization fold appends the renderings of the statements, in
order, to the accumulator. -/
theorem foldlM_serialize (es : List Expr) (acc : String) :
    es.foldlM (fun buf statement => do pure (buf ++ (← statement.repr))) acc =
      (es.mapM Expr.repr).map (fun rs => acc ++ joinAll rs) := by
  induction es generalizing acc with
  | nil => simp [List.foldlM, List.mapM, List.mapM.loop, Except.map, joinAll, pure, Except.pure]
  | cons e rest ih =>
    cases h : e.repr with
    | error err =>
      simp [List.foldlM, h, exceptBind_err, exceptBind_ok, List.mapM, List.mapM.loop,
        Except.map, pure, Except.pure]
    | ok r =>
      simp only [List.foldlM, h, exceptBind_ok, pure_bind]
      rw [ih (acc ++ r)]
      rw [show (e :: rest).mapM Expr.repr = (Expr.repr e >>= fun b => List.mapM.loop Expr.repr rest [b]) from rfl]
      rw [h]
      simp only [exceptBind_ok]
      rw [mapM_loop_acc Expr.repr rest [r]]
      cases hm : rest.mapM Expr.repr with
      | error err => simp [hm, Except.map]
      | ok rs => simp [hm, Except.map, joinAll, String.append_assoc]

set_option maxRecDepth 4096 in
/-- C9: serialization emits the fixed preamble — `package main`, the
three `default ... = false` lines, the `to_array` and `arn_like`
helpers, and the decision rule `allow if (permit; not deny)` — followed
by every translated statement's rendering in input order. -/
theorem claim_C9 (es : List Expr) (rs : List String) (h : es.mapM Expr.repr = .ok rs) :
    Policy.serialize ⟨es⟩ =
      .ok ("package main\ndefault allow = false\ndefault deny = false\ndefault permit = false\nto_array(x) := x if \x7b is_array(x) \x7d\nto_array(x) := [x] if \x7b not is_array(x) \x7d\narn_like(lhs, rhs) if \x7b\n  count(indexof_n(lhs, \":\")) == 5\n  count(indexof_n(rhs, \":\")) == 5\n  glob.match(lhs, [\":\"], rhs)\n\x7d\nallow if \x7b\n  permit\n  not deny\n\x7d\n" ++ joinAll rs) := by
  unfold Policy.serialize
  rw [foldlM_serialize es (BASE ++ "\n"), h]
  rfl

/-- Witness for C9 on a one-statement policy. -/
theorem claim_C9_witness :
    Policy.serialize ⟨[Expr.Statement .Allow [] []]⟩ =
      .ok ("package main\ndefault allow = false\ndefault deny = false\ndefault permit = false\nto_array(x) := x if \x7b is_array(x) \x7d\nto_array(x) := [x] if \x7b not is_array(x) \x7d\narn_like(lhs, rhs) if \x7b\n  count(indexof_n(lhs, \":\")) == 5\n  count(indexof_n(rhs, \":\")) == 5\n  glob.match(lhs, [\":\"], rhs)\n\x7d\nallow if \x7b\n  permit\n  not deny\n\x7d\n" ++ joinAll ["permit if \x7b\n\x7d\n"]) :=
  claim_C9 [Expr.Statement .Allow [] []] ["permit if \x7b\n\x7d\n"] rfl

/-- A successful statement translation yields a `Statement` node with
the statement's effect and its conditions stored verbatim. -/
theorem generate_shape (s : Statement) (e : Expr) (h : Statement.generate s = .ok e) :
    ∃ body, e = .Statement s.effect body s.conditions := by
  unfold Statement.generate at h
  cases h1 : scope_expr .Principal s.principals with
  | error e1 => rw [h1] at h; simp [exceptBind_err] at h
  | ok p =>
    rw [h1] at h
    simp only [exceptBind_ok] at h
    cases h2 : scope_expr .Action s.actions with
    | error e2 => rw [h2] at h; simp [exceptBind_err] at h
    | ok a =>
      rw [h2] at h
      simp only [exceptBind_ok] at h
      cases h3 : scope_expr .Resource s.resources with
      | error e3 => rw [h3] at h; simp [exceptBind_err] at h
      | ok r =>
        rw [h3] at h
        simp only [exceptBind_ok] at h
        refine ⟨p.toList ++ a.toList ++ r.toList, ?_⟩
        injection h with h'
        exact h'.symm

/-- A statement carrying an unsupported condition operator, used by C10. -/
def stmtUnsupportedOp : AwsStatement :=
  { effect := .Allow, principal := none,
    action := .Action (.One ⟨some "s3", "GetObject"⟩),
    resource := .Resource (.One "arn:aws:s3:::bucket/object"),
    condition := some [(⟨none, .Other "Null"⟩, [(⟨none, "x"⟩, .One (.String "y"))])] }

/-- The translated form of `stmtUnsupportedOp`. -/
def exprUnsupportedOp : Expr :=
  .Statement .Allow
    [.Eq (.Var "input.action") (.StrPlain "s3:GetObject"),
     .Eq (.Var "input.resource") (.StrPlain "arn:aws:s3:::bucket/object")]
    [(⟨none, .Other "Null"⟩, [(⟨none, "x"⟩, .One (.String "y"))])]

/-- A statement whose condition value fails boolean coercion, used by C10. -/
def stmtInvalidVal : AwsStatement :=
  { effect := .Allow, principal := none,
    action := .Action (.One ⟨some "s3", "GetObject"⟩),
    resource := .Resource (.One "arn:aws:s3:::bucket/object"),
    condition := some [(⟨none, .Bool⟩, [(⟨none, "flag"⟩, .One (.Float "1.5"))])] }

/-- The translated form of `stmtInvalidVal`. -/
def exprInvalidVal : Expr :=
  .Statement .Allow
    [.Eq (.Var "input.action") (.StrPlain "s3:GetObject"),
     .Eq (.Var "input.resource") (.StrPlain "arn:aws:s3:::bucket/object")]
    [(⟨none, .Bool⟩, [(⟨none, "flag"⟩, .One (.Float "1.5"))])]

/-- C10: parsing stores the condition block unlowered on the `Statement`
node (so parse succeeds regardless of the condition's operator or value)
and the corresponding `UnsupportedFunction` or `InvalidType` error
surfaces only at emission time, in `Policy::serialize` / `Expr::repr`. -/
theorem claim_C10 :
    (∀ (st : AwsStatement) (e : Expr), parse_statement st = .ok e →
      ∃ body, e = .Statement
        (match st.effect with | .Allow => Effect.Allow | .Deny => Effect.Deny)
        body (collect_conditions st.condition)) ∧
    (parse_statement stmtUnsupportedOp = .ok exprUnsupportedOp) ∧
    (Policy.serialize ⟨[exprUnsupportedOp]⟩ = .error (.UnsupportedFunction "Null")) ∧
    (parse_statement stmtInvalidVal = .ok exprInvalidVal) ∧
    (Expr.repr exprInvalidVal = .error (.InvalidType "bool" "Float(1.5)")) := by
  refine ⟨?_, rfl, rfl, rfl, rfl⟩
  intro st e h
  unfold parse_statement at h
  cases hp : parse_principal st.principal with
  | err e1 => rw [hp] at h; simp [poutBind_err] at h
  | panics m => rw [hp] at h; simp [poutBind_panics] at h
  | ok pr =>
    rw [hp] at h
    simp only [poutBind_ok] at h
    cases ha : parse_action st.action with
    | err e2 => rw [ha] at h; simp [poutBind_err] at h
    | panics m => rw [ha] at h; simp [poutBind_panics] at h
    | ok ac =>
      rw [ha] at h
      simp only [poutBind_ok] at h
      cases hr : parse_resource st.resource with
      | err e3 => rw [hr] at h; simp [poutBind_err] at h
      | panics m => rw [hr] at h; simp [poutBind_panics] at h
      | ok re =>
        rw [hr] at h
        simp only [poutBind_ok] at h
        cases hg : Statement.generate
            { effect := match st.effect with | .Allow => Effect.Allow | .Deny => Effect.Deny,
              principals := pr, actions := ac, resources := re,
              conditions := collect_conditions st.condition } with
        | error e4 => rw [hg] at h; simp [POut.ofExcept] at h
        | ok v =>
          rw [hg] at h
          simp only [POut.ofExcept] at h
          obtain ⟨body, hb⟩ := generate_shape _ _ hg
          injection h with h'
          subst h'
          exact ⟨body, hb⟩

/-- Witness for C10's general conjunct at a concrete statement. -/
theorem claim_C10_witness :
    ∃ body, exprUnsupportedOp = .Statement
      (match stmtUnsupportedOp.effect with | .Allow => Effect.Allow | .Deny => Effect.Deny)
      body (collect_conditions stmtUnsupportedOp.condition) :=
  claim_C10.1 stmtUnsupportedOp exprUnsupportedOp claim_C10.2.1

/-- Number of positions at which the two-character placeholder marker
percent-s occurs in a character list. -/
def countPS : List Char → Nat
  | a :: b :: rest => (if a = '%' ∧ b = 's' then 1 else 0) + countPS (b :: rest)
  | _ => 0

/-- Extending a list on the left cannot lose placeholder occurrences. -/
theorem countPS_cons_le (c : Char) (l : List Char) : countPS l ≤ countPS (c :: l) := by
  cases l with
  | nil => simp [countPS]
  | cons b rest =>
    simp only [countPS]
    omega

/-- A head that is not a percent sign contributes no occurrence. -/
theorem countPS_cons_of_ne (a : Char) (l : List Char) (h : a ≠ '%') :
    countPS (a :: l) = countPS l := by
  cases l with
  | nil => simp [countPS]
  | cons b rest => simp [countPS, h]

/-- Occurrences split over an append whose right part does not start
with the letter s (so no occurrence spans the boundary). -/
theorem countPS_append (xs ys : List Char) (h : ys.head? ≠ some 's') :
    countPS (xs ++ ys) = countPS xs + countPS ys := by
  induction xs with
  | nil =>
    have h0 : countPS ([] : List Char) = 0 := rfl
    simp [h0]
  | cons a xs ih =>
    cases xs with
    | nil =>
      cases ys with
      | nil => simp [countPS]
      | cons y t =>
        have hy : y ≠ 's' := by
          intro he
          exact h (by simp [he])
        simp [countPS, hy]
    | cons b rest =>
      have h1 : ((a :: b :: rest) ++ ys) = a :: ((b :: rest) ++ ys) := rfl
      rw [h1]
      have h2 : countPS (a :: (b :: rest ++ ys)) =
          (if a = '%' ∧ b = 's' then 1 else 0) + countPS (b :: rest ++ ys) := rfl
      have h3 : countPS (a :: b :: rest) =
          (if a = '%' ∧ b = 's' then 1 else 0) + countPS (b :: rest) := rfl
      rw [h2, h3, ih]
      omega

/-- Dropping a prefix cannot create placeholder occurrences. -/
theorem countPS_drop_le (l : List Char) (n : Nat) : countPS (l.drop n) ≤ countPS l := by
  induction l generalizing n with
  | nil => simp
  | cons c rest ih =>
    cases n with
    | zero => simp
    | succ m =>
      calc countPS ((c :: rest).drop (m + 1)) = countPS (rest.drop m) := rfl
        _ ≤ countPS rest := ih m
        _ ≤ countPS (c :: rest) := countPS_cons_le c rest

/-- Taking a prefix cannot create placeholder occurrences. -/
theorem countPS_take_le (l : List Char) (n : Nat) : countPS (l.take n) ≤ countPS l := by
  induction l generalizing n with
  | nil => simp
  | cons c rest ih =>
    cases n with
    | zero =>
      have h0 : countPS ([] : List Char) = 0 := rfl
      simp [h0]
    | succ m =>
      cases rest with
      | nil =>
        have h1 : (c :: ([] : List Char)).take (m + 1) = [c] := by simp
        rw [h1]
      | cons b rest2 =>
        cases m with
        | zero =>
          have h1 : (c :: b :: rest2).take 1 = [c] := rfl
          rw [h1]
          have h2 : countPS [c] = 0 := rfl
          simp [h2]
        | succ k =>
          have h1 : (c :: b :: rest2).take (k + 2) = c :: b :: rest2.take k := rfl
          rw [h1]
          have h3 : countPS (c :: b :: rest2.take k) =
              (if c = '%' ∧ b = 's' then 1 else 0) + countPS (b :: rest2.take k) := rfl
          have h4 : countPS (c :: b :: rest2) =
              (if c = '%' ∧ b = 's' then 1 else 0) + countPS (b :: rest2) := rfl
          rw [h3, h4]
          have h5 : countPS (b :: rest2.take k) ≤ countPS (b :: rest2) := ih (k + 1)
          omega

/-- The character emitted for an escape segment is a star, question mark
or dollar sign — never the letter s nor a percent sign. -/
theorem special_char_cases {v : List Char} {c : Char} (h : handle_special_variable v = some c) :
    c ≠ 's' ∧ c ≠ '%' := by
  unfold handle_special_variable at h
  split at h
  all_goals first
    | (injection h with h2; subst h2; decide)
    | cases h

/-- Loop invariant of the interpolator: on an input with no literal
placeholder marker, the emitted format holds exactly one marker per
collected variable. -/
theorem svGo_count : ∀ (fuel : Nat) (s f : List Char) (vs : List Expr),
    countPS s = 0 → svGo fuel s = .ok (f, vs) → countPS f = vs.length := by
  intro fuel
  induction fuel with
  | zero =>
    intro s f vs h0 h
    simp only [svGo] at h
    injection h with h'
    have hf : s = f := congrArg Prod.fst h'
    have hv : ([] : List Expr) = vs := congrArg Prod.snd h'
    subst hf
    subst hv
    simpa using h0
  | succ fuel ih =>
    intro s f vs h0 h
    rw [svGo] at h
    cases hfo : findOpenIdx s with
    | none =>
      rw [hfo] at h
      simp only at h
      injection h with h'
      have hf : s = f := congrArg Prod.fst h'
      have hv : ([] : List Expr) = vs := congrArg Prod.snd h'
      subst hf
      subst hv
      simpa using h0
    | some start =>
      rw [hfo] at h
      simp only at h
      cases hfc : findCloseIdx (s.drop (start + 2)) with
      | none =>
        rw [hfc] at h
        simp only at h
        injection h with h'
        have hf : s = f := congrArg Prod.fst h'
        have hv : ([] : List Expr) = vs := congrArg Prod.snd h'
        subst hf
        subst hv
        simpa using h0
      | some endRel =>
        rw [hfc] at h
        simp only at h
        have hpre : countPS (s.take start) = 0 :=
          Nat.le_zero.mp (h0 ▸ countPS_take_le s start)
        have htail : countPS ((s.drop (start + 2)).drop (endRel + 1)) = 0 := by
          have h1 := countPS_drop_le (s.drop (start + 2)) (endRel + 1)
          have h2 := countPS_drop_le s (start + 2)
          omega
        cases hsp : handle_special_variable ((s.drop (start + 2)).take endRel) with
        | some c =>
          rw [hsp] at h
          simp only at h
          cases hsv : svGo fuel ((s.drop (start + 2)).drop (endRel + 1)) with
          | error e => rw [hsv] at h; cases h
          | ok pr =>
            obtain ⟨f', vs'⟩ := pr
            rw [hsv] at h
            simp only at h
            injection h with h'
            have hf : s.take start ++ c :: f' = f := congrArg Prod.fst h'
            have hv : vs' = vs := congrArg Prod.snd h'
            have hcs : c ≠ 's' := (special_char_cases hsp).1
            have hcp : c ≠ '%' := (special_char_cases hsp).2
            have hih := ih _ _ _ htail hsv
            rw [← hf, ← hv]
            rw [countPS_append _ _ (by simp [hcs])]
            rw [countPS_cons_of_ne c f' hcp, hpre, hih]
            omega
        | none =>
          rw [hsp] at h
          simp only at h
          cases hval : validate_variable_expr
              (parse_variable_with_default ((s.drop (start + 2)).take endRel)).1 with
          | error e => rw [hval] at h; cases h
          | ok u =>
            rw [hval] at h
            simp only at h
            cases hsv : svGo fuel ((s.drop (start + 2)).drop (endRel + 1)) with
            | error e => rw [hsv] at h; cases h
            | ok pr =>
              obtain ⟨f', vs'⟩ := pr
              rw [hsv] at h
              simp only at h
              injection h with h'
              rw [Prod.mk.injEq] at h'
              have hf : s.take start ++ '%' :: 's' :: f' = f := h'.1
              have hih := ih _ _ _ htail hsv
              have hv : vs.length = vs'.length + 1 := by
                rw [← h'.2]
                simp
              rw [← hf]
              rw [countPS_append _ _ (by simp)]
              have h2 : countPS ('%' :: 's' :: f') = 1 + countPS ('s' :: f') := by
                simp [countPS]
              rw [h2, countPS_cons_of_ne 's' f' (by decide), hpre, hih, hv]
              omega

/-- Counterexample to C2 as stated: a literal placeholder marker outside
any interpolation segment is copied verbatim into the format, so the
format holds two markers while only one variable was collected. -/
theorem claim_C2_counterexample :
    substitute_variables "a%s$\x7bb\x7d" = .ok (.Template "a%s%s" [Expr.Var "input.b"]) ∧
    countPS "a%s%s".data = 2 ∧ ([Expr.Var "input.b"] : List Expr).length = 1 :=
  ⟨rfl, by decide, rfl⟩

/-- C2 (amended): whenever the interpolator returns
`Str::Template(fmt, vars)` for an input that contains no literal
placeholder marker, the number of markers in `fmt` equals the number of
collected variables; a literal marker in the input is copied verbatim
and adds an occurrence not matched by any variable. -/
theorem claim_C2 (t : String) (fmt : String) (vars : List Expr)
    (h0 : countPS t.data = 0)
    (h : substitute_variables t = .ok (.Template fmt vars)) :
    countPS fmt.data = vars.length := by
  unfold substitute_variables at h
  split_ifs at h with hs
  · cases h
  · cases hsv : svGo t.data.length t.data with
    | error e => rw [hsv] at h; cases h
    | ok pr =>
      obtain ⟨f, vs⟩ := pr
      rw [hsv] at h
      simp only at h
      split_ifs at h with hemp
      · cases h
      · injection h with h'
        injection h' with h1 h2
        have := svGo_count t.data.length t.data f vs h0 hsv
        rw [← h1, ← h2]
        simpa using this

/-- Witness for C2 on a one-variable template. -/
theorem claim_C2_witness :
    countPS "Hello %s".data = ([Expr.Var "input.username"] : List Expr).length :=
  claim_C2 "Hello $\x7busername\x7d" "Hello %s" [Expr.Var "input.username"] (by decide) rfl

/-- A list is a prefix of itself followed by anything. -/
theorem isPrefixOf_append_self (p t : List Char) : p.isPrefixOf (p ++ t) = true := by
  induction p with
  | nil => simp [List.isPrefixOf]
  | cons c rest ih => simp [List.isPrefixOf, ih]

/-- A pattern occurs in any list that embeds it between two parts. -/
theorem hasSub_sandwich (p x y : List Char) : hasSub p (x ++ p ++ y) = true := by
  induction x with
  | nil =>
    simp only [List.nil_append]
    cases hp : p with
    | nil =>
      cases y with
      | nil => rfl
      | cons c rest => simp [hasSub, List.isPrefixOf]
    | cons a p' =>
      subst hp
      have h2 : (a :: p') ++ y = a :: (p' ++ y) := rfl
      rw [h2, hasSub]
      have h3 := isPrefixOf_append_self (a :: p') y
      rw [List.cons_append] at h3
      rw [h3]
      simp
  | cons c rest ih =>
    have h1 : (c :: rest) ++ p ++ y = c :: (rest ++ p ++ y) := by simp
    rw [h1, hasSub, ih]
    simp

/-- The first opening marker after a dollar-free prefix sits exactly at
the end of that prefix. -/
theorem findOpenIdx_sandwich (a b : List Char) (h : a.contains '$' = false) :
    findOpenIdx (a ++ '$' :: '\x7b' :: b) = some a.length := by
  induction a with
  | nil => simp [findOpenIdx]
  | cons c rest ih =>
    simp only [List.contains_cons, Bool.or_eq_false_iff, beq_eq_false_iff_ne, ne_eq] at h
    have hc : c ≠ '$' := fun he => h.1 he.symm
    have h2 : (c :: rest) ++ '$' :: '\x7b' :: b = c :: (rest ++ '$' :: '\x7b' :: b) := rfl
    rw [h2]
    simp [findOpenIdx, hc, ih h.2]

/-- A list without a closing brace has no closing index. -/
theorem findCloseIdx_none (b : List Char) (h : b.contains '\x7d' = false) :
    findCloseIdx b = none := by
  induction b with
  | nil => rfl
  | cons c rest ih =>
    simp only [List.contains_cons, Bool.or_eq_false_iff, beq_eq_false_iff_ne, ne_eq] at h
    have hc : c ≠ '\x7d' := fun he => h.1 he.symm
    simp [findCloseIdx, hc, ih h.2]

/-- Dropping the prefix and the opening marker leaves the remainder. -/
theorem drop_sandwich (a b : List Char) :
    (a ++ '$' :: '\x7b' :: b).drop (a.length + 2) = b := by
  have h1 : a ++ '$' :: '\x7b' :: b = (a ++ ['$', '\x7b']) ++ b := by simp
  have h2 : a.length + 2 = (a ++ ['$', '\x7b']).length := by simp
  rw [h1, h2, List.drop_left]

/-- Counterexample to C7 as stated: an interpolation segment whose body
contains the opening marker inside a quoted default value is accepted —
the interpolator does not fail with `NestedInterpolation` even though
the segment body contains the marker, because only the name part before
the comma is validated. -/
theorem claim_C7_counterexample :
    hasSub openPat "x, '$\x7b'".data = true ∧
    substitute_variables "$\x7bx, '$\x7b'\x7d" =
      .ok (.Template "%s" [Expr.Call "object.get"
        [Expr.Var "input", Expr.List [Expr.StrPlain "x"], Expr.StrPlain "$\x7b"]]) :=
  ⟨by decide, rfl⟩

/-- C7 (amended): the validator errors are keyed on the name part of a
segment and checked in source order — `EmptyExpression` exactly on the
empty name, `NestedInterpolation` exactly when the nonempty name
contains the opening marker, `TooManySlashes` exactly when it also has
no closing brace and more than one slash, `InvalidCharacters` exactly in
the remaining failing cases (a closing brace, or a character outside
letters, digits, underscore, dash, colon, dot, slash); and an unclosed
opening marker is not an error — the rest of the input is copied
verbatim. -/
theorem claim_C7 :
    (∀ l : List Char, validate_variable_expr l = .error .EmptyExpression ↔ l = []) ∧
    (∀ l : List Char, validate_variable_expr l = .error (.NestedInterpolation (String.mk l)) ↔
      (l ≠ [] ∧ hasSub openPat l = true)) ∧
    (∀ l : List Char, validate_variable_expr l = .error (.TooManySlashes (String.mk l)) ↔
      (l ≠ [] ∧ hasSub openPat l = false ∧ l.contains '\x7d' = false ∧
        1 < (l.filter (fun c => c = '/')).length)) ∧
    (∀ l : List Char, validate_variable_expr l = .error (.InvalidCharacters (String.mk l)) ↔
      (l ≠ [] ∧ hasSub openPat l = false ∧
        (l.contains '\x7d' = true ∨
          ((l.filter (fun c => c = '/')).length ≤ 1 ∧ l.all allowedVarChar = false)))) ∧
    (∀ a b : List Char, a.contains '$' = false → b.contains '\x7d' = false →
      substitute_variables (String.mk (a ++ openPat ++ b)) =
        .ok (.Plain (String.mk (a ++ openPat ++ b)))) := by
  refine ⟨?_, ?_, ?_, ?_, ?_⟩
  · intro l
    unfold validate_variable_expr
    split_ifs with h1 h2 h3 h4 h5 <;> simp_all
  · intro l
    unfold validate_variable_expr
    split_ifs with h1 h2 h3 h4 h5 <;> simp_all
  · intro l
    unfold validate_variable_expr
    split_ifs with h1 h2 h3 h4 h5 <;> simp_all <;> omega
  · intro l
    unfold validate_variable_expr
    split_ifs with h1 h2 h3 h4 h5 <;> simp_all <;> omega
  · intro a b ha hb
    have hL : (String.mk (a ++ openPat ++ b)).data = a ++ openPat ++ b := rfl
    have hsub : hasSub openPat (a ++ openPat ++ b) = true := hasSub_sandwich openPat a b
    unfold substitute_variables
    rw [hL]
    rw [if_neg (by rw [hsub]; simp)]
    obtain ⟨n, hn⟩ : ∃ n, (a ++ openPat ++ b).length = n + 1 := by
      refine ⟨(a ++ openPat ++ b).length - 1, ?_⟩
      have : 2 ≤ (a ++ openPat ++ b).length := by
        simp [openPat]
        omega
      omega
    rw [hn]
    have hOpen : findOpenIdx (a ++ openPat ++ b) = some a.length := by
      have h4 : a ++ openPat ++ b = a ++ '$' :: '\x7b' :: b := by simp [openPat]
      rw [h4]
      exact findOpenIdx_sandwich a b ha
    have hDrop : (a ++ openPat ++ b).drop (a.length + 2) = b := by
      have h4 : a ++ openPat ++ b = a ++ '$' :: '\x7b' :: b := by simp [openPat]
      rw [h4]
      exact drop_sandwich a b
    simp only [svGo, hOpen, hDrop, findCloseIdx_none b hb]
    simp

/-- Witness for C7 on one concrete input per error and an unclosed
segment. -/
theorem claim_C7_witness :
    validate_variable_expr [] = .error .EmptyExpression ∧
    validate_variable_expr "a$\x7bb".data = .error (.NestedInterpolation "a$\x7bb") ∧
    validate_variable_expr "a/b/c".data = .error (.TooManySlashes "a/b/c") ∧
    validate_variable_expr "user@name".data = .error (.InvalidCharacters "user@name") ∧
    substitute_variables (String.mk ("x".data ++ openPat ++ "y".data)) =
      .ok (.Plain (String.mk ("x".data ++ openPat ++ "y".data))) :=
  ⟨(claim_C7.1 []).mpr rfl,
   (claim_C7.2.1 "a$\x7bb".data).mpr (by decide),
   (claim_C7.2.2.1 "a/b/c".data).mpr (by decide),
   (claim_C7.2.2.2.1 "user@name".data).mpr (by decide),
   claim_C7.2.2.2.2 "x".data "y".data (by decide) (by decide)⟩

end Regoer
